import Mathlib

/-!
Verification of the report-generation program (`src/app.py`) against its
specification.  The Python source is shallowly embedded: dictionaries become
association lists (`List (String × α)`) with first-match lookup and
in-place-overwrite insertion (mirroring `dict` semantics, whose keys are
unique), strings become `String`/`List Char`, ZIP archives become lists of
(member name, member bytes) pairs, and the filesystem becomes an association
list from paths to archives.  External network calls are parameters of the
embedded functions.
-/

namespace App

/-! ### Association lists standing in for Python dicts -/

/-- First-match lookup, `d[k]` / `k in d` for a Python dict modelled as an
association list with unique keys. -/
def lookupKey {α : Type} : List (String × α) → String → Option α
  | [], _ => none
  | e :: rest, k => if e.1 = k then some e.2 else lookupKey rest k

/-- Python dict assignment `d[k] = v`: overwrite the entry if the key is
present, append it otherwise. -/
def setKey {α : Type} : List (String × α) → String → α → List (String × α)
  | [], k, v => [(k, v)]
  | e :: rest, k, v => if e.1 = k then (k, v) :: rest else e :: setKey rest k v

theorem lookup_setKey_self {α : Type} (acc : List (String × α)) (k : String) (v : α) :
    lookupKey (setKey acc k v) k = some v := by
  induction acc with
  | nil => simp [setKey, lookupKey]
  | cons e rest ih =>
    by_cases h : e.1 = k
    · simp [setKey, h, lookupKey]
    · simp [setKey, h, lookupKey, ih]

theorem lookup_setKey_ne {α : Type} (acc : List (String × α)) (k k' : String) (v : α)
    (h : k' ≠ k) : lookupKey (setKey acc k v) k' = lookupKey acc k' := by
  have hks : ¬ k = k' := fun h' => h h'.symm
  induction acc with
  | nil => simp [setKey, lookupKey, hks]
  | cons e rest ih =>
    by_cases he : e.1 = k
    · simp [setKey, he, lookupKey, hks]
    · by_cases he' : e.1 = k'
      · simp [setKey, he, lookupKey, he', h]
      · simp [setKey, he, lookupKey, he', ih]

theorem lookup_setKey_cases {α : Type} (acc : List (String × α)) (k k' : String) (v w : α)
    (h : lookupKey (setKey acc k v) k' = some w) :
    (k' = k ∧ w = v) ∨ lookupKey acc k' = some w := by
  by_cases hk : k' = k
  · subst hk
    rw [lookup_setKey_self] at h
    exact Or.inl ⟨rfl, (Option.some_injective _ h).symm⟩
  · rw [lookup_setKey_ne _ _ _ _ hk] at h
    exact Or.inr h

/-! ### Field schema (`FIELD_GROUPS` / `ALL_FIELDS`, app.py lines 47-68) -/

/-- The sentinel for "not mentioned", `"未提及"`. -/
def sentinel : String := "未提及"

/-- `ALL_FIELDS`: the flattened field schema of `FIELD_GROUPS`. -/
def ALL_FIELDS : List String :=
  [ "权属人", "房产地址", "委托人", "委托书文号",
    "报告编号", "报告序号", "价值时点", "报告日期",
    "查勘日期", "签名日期", "作业期",
    "建筑面积", "土地面积", "户型", "总层数",
    "所在楼层", "建成年份", "欠缴特约物业费", "欠缴物业费",
    "不动产权证号", "使用期限", "宗地号", "登记日期",
    "抵押权人", "抵押登记证明号", "债权数额",
    "抵押登记日期", "债务履行期限", "查封文号", "查封期限",
    "评估总价", "评估总价大写", "评估单价", "评估单价大写" ]

/-! ### Field-extraction merge policy (`extract_info_from_pdf`, app.py 132-144) -/

/-- `v and v != "未提及"`: a returned value is accepted only if it is truthy
(non-empty) and not the sentinel. -/
def goodVal (v : String) : Bool := v != "" && v != sentinel

/-- `k not in all_results or not all_results[k] or all_results[k] == "未提及"`:
the accumulator slot for `k` is still open. -/
def slotOpen (acc : List (String × String)) (k : String) : Bool :=
  match lookupKey acc k with
  | none => true
  | some cur => cur == "" || cur == sentinel

/-- One `for k, v in batch_result.items()` iteration of the merge loop. -/
def mergePair (acc : List (String × String)) (kv : String × String) :
    List (String × String) :=
  if goodVal kv.2 && slotOpen acc kv.1 then setKey acc kv.1 kv.2 else acc

/-- Merge one parsed batch result into the accumulator. -/
def mergeBatch (acc : List (String × String)) (batch : List (String × String)) :
    List (String × String) :=
  batch.foldl mergePair acc

/-- Fold all batches into the accumulator; `none` models a batch whose
response failed to parse (`except Exception: pass` discards it). -/
def mergeBatches (acc : List (String × String))
    (batches : List (Option (List (String × String)))) : List (String × String) :=
  batches.foldl (fun a ob => match ob with | none => a | some b => mergeBatch a b) acc

/-- `for f in ALL_FIELDS: if f not in all_results: all_results[f] = "未提及"`. -/
def backfill (acc : List (String × String)) (fields : List String) :
    List (String × String) :=
  fields.foldl (fun a f => if (lookupKey a f).isSome then a else setKey a f sentinel) acc

/-- The merge-policy core of `extract_info_from_pdf`, as a function of the
sequence of (parsed or unparseable) batch responses. -/
def extract_info_from_pdf (batches : List (Option (List (String × String)))) :
    List (String × String) :=
  backfill (mergeBatches [] batches) ALL_FIELDS

theorem goodVal_iff (v : String) : goodVal v = true ↔ v ≠ "" ∧ v ≠ sentinel := by
  simp [goodVal]

theorem mergePair_keeps (acc : List (String × String)) (k c : String)
    (hgood : goodVal c = true) (h : lookupKey acc k = some c) (kv : String × String) :
    lookupKey (mergePair acc kv) k = some c := by
  unfold mergePair
  split
  · rename_i hcond
    by_cases hk : kv.1 = k
    · subst hk
      rw [Bool.and_eq_true] at hcond
      have := hcond.2
      rw [slotOpen, h] at this
      rw [goodVal_iff] at hgood
      simp only [Bool.or_eq_true, beq_iff_eq] at this
      rcases this with h1 | h1
      · exact absurd h1 hgood.1
      · exact absurd h1 hgood.2
    · rw [lookup_setKey_ne _ _ _ _ (fun h' => hk h'.symm)]
      exact h
  · exact h

theorem mergeBatch_keeps (k c : String) (hgood : goodVal c = true) :
    ∀ (b : List (String × String)) (acc : List (String × String)),
      lookupKey acc k = some c → lookupKey (mergeBatch acc b) k = some c := by
  intro b
  induction b with
  | nil => intro acc h; exact h
  | cons kv rest ih =>
    intro acc h
    exact ih (mergePair acc kv) (mergePair_keeps acc k c hgood h kv)

theorem mergeBatches_keeps (k c : String) (hgood : goodVal c = true) :
    ∀ (bs : List (Option (List (String × String)))) (acc : List (String × String)),
      lookupKey acc k = some c → lookupKey (mergeBatches acc bs) k = some c := by
  intro bs
  induction bs with
  | nil => intro acc h; exact h
  | cons ob rest ih =>
    intro acc h
    cases ob with
    | none => exact ih acc h
    | some b => exact ih (mergeBatch acc b) (mergeBatch_keeps k c hgood b acc h)

/-- Scenario A batches: batch 1 returns 权属人=张三 and a sentinel for 房产地址,
batch 2 returns the real 房产地址. -/
def scenA_batches : List (Option (List (String × String))) :=
  [ some [("权属人", "张三"), ("房产地址", "未提及")],
    some [("房产地址", "北京市朝阳区XX路1号")] ]

theorem backfill_cons (acc : List (String × String)) (g : String) (fs : List String) :
    backfill acc (g :: fs) =
      backfill (if (lookupKey acc g).isSome then acc else setKey acc g sentinel) fs := rfl

theorem backfill_keeps (k v : String) :
    ∀ (fs : List String) (acc : List (String × String)),
      lookupKey acc k = some v → lookupKey (backfill acc fs) k = some v := by
  intro fs
  induction fs with
  | nil => intro acc h; exact h
  | cons g rest ih =>
    intro acc h
    rw [backfill_cons]
    refine ih _ ?_
    split
    · exact h
    · rename_i hn
      by_cases hgk : g = k
      · subst hgk; rw [h] at hn; simp at hn
      · rw [lookup_setKey_ne _ _ _ _ (fun he => hgk he.symm)]; exact h

theorem backfill_fills (k : String) :
    ∀ (fs : List String) (acc : List (String × String)),
      k ∈ fs → lookupKey acc k = none → lookupKey (backfill acc fs) k = some sentinel := by
  intro fs
  induction fs with
  | nil => intro acc hk; simp at hk
  | cons g rest ih =>
    intro acc hk hnone
    rw [backfill_cons]
    by_cases hgk : g = k
    · subst hgk
      rw [hnone]
      simp only [Option.isSome_none, Bool.false_eq_true, if_false]
      exact backfill_keeps g sentinel rest _ (lookup_setKey_self _ _ _)
    · have hk' : k ∈ rest := by
        rcases List.mem_cons.mp hk with h | h
        · exact absurd h.symm hgk
        · exact h
      refine ih _ hk' ?_
      split
      · exact hnone
      · rw [lookup_setKey_ne _ _ _ _ (fun he => hgk he.symm)]; exact hnone

theorem backfill_some (k : String) (fs : List String) (acc : List (String × String))
    (hk : k ∈ fs) : ∃ v, lookupKey (backfill acc fs) k = some v := by
  cases hv : lookupKey acc k with
  | none => exact ⟨sentinel, backfill_fills k fs acc hk hv⟩
  | some v => exact ⟨v, backfill_keeps k v fs acc hv⟩

theorem backfill_cases (k v : String) :
    ∀ (fs : List String) (acc : List (String × String)),
      lookupKey (backfill acc fs) k = some v →
      lookupKey acc k = some v ∨ v = sentinel := by
  intro fs
  induction fs with
  | nil => intro acc h; exact Or.inl h
  | cons g rest ih =>
    intro acc h
    rw [backfill_cons] at h
    rcases ih _ h with h' | h'
    · revert h'
      split
      · intro h'; exact Or.inl h'
      · intro h'
        rcases lookup_setKey_cases _ _ _ _ _ h' with ⟨_, hv⟩ | h2
        · exact Or.inr hv
        · exact Or.inl h2
    · exact Or.inr h'

/-- A merge accumulator whose every value is accepted (non-empty, non-sentinel). -/
def GoodAcc (acc : List (String × String)) : Prop :=
  ∀ k v, lookupKey acc k = some v → goodVal v = true

theorem mergePair_good (acc : List (String × String)) (kv : String × String)
    (h : GoodAcc acc) : GoodAcc (mergePair acc kv) := by
  intro k v hv
  unfold mergePair at hv
  revert hv
  split
  · rename_i hc
    intro hv
    rcases lookup_setKey_cases _ _ _ _ _ hv with ⟨_, hveq⟩ | h2
    · subst hveq; exact ((Bool.and_eq_true _ _).mp hc).1
    · exact h _ _ h2
  · intro hv; exact h _ _ hv

theorem mergeBatch_good :
    ∀ (b : List (String × String)) (acc : List (String × String)),
      GoodAcc acc → GoodAcc (mergeBatch acc b) := by
  intro b
  induction b with
  | nil => intro acc h; exact h
  | cons kv rest ih => intro acc h; exact ih _ (mergePair_good acc kv h)

theorem mergeBatches_good :
    ∀ (bs : List (Option (List (String × String)))) (acc : List (String × String)),
      GoodAcc acc → GoodAcc (mergeBatches acc bs) := by
  intro bs
  induction bs with
  | nil => intro acc h; exact h
  | cons ob rest ih =>
    intro acc h
    cases ob with
    | none => exact ih acc h
    | some b => exact ih _ (mergeBatch_good b acc h)

set_option maxRecDepth 100000 in
/-- C1: in the field-extraction merge, a returned key/value pair overwrites the
accumulator entry iff the value is a non-empty, non-sentinel string and the
accumulator slot is absent, empty, or the sentinel; otherwise the pair is
discarded; consequently a key holding a non-empty non-sentinel value is never
changed by later batches, and Scenario A produces 权属人=张三 with 房产地址
filled by batch 2. -/
theorem C1_merge_policy (acc : List (String × String)) (k v : String) :
    (lookupKey (mergePair acc (k, v)) k
       = if goodVal v && slotOpen acc k then some v else lookupKey acc k)
  ∧ ((goodVal v && slotOpen acc k) = false → mergePair acc (k, v) = acc)
  ∧ (∀ c, lookupKey acc k = some c → goodVal c = true →
       ∀ bs : List (Option (List (String × String))),
         lookupKey (mergeBatches acc bs) k = some c)
  ∧ (lookupKey (extract_info_from_pdf scenA_batches) "权属人" = some "张三"
     ∧ lookupKey (extract_info_from_pdf scenA_batches) "房产地址"
         = some "北京市朝阳区XX路1号") := by
  refine ⟨?_, ?_, ?_, by decide⟩
  · cases hc : goodVal v && slotOpen acc k with
    | true => simp [mergePair, hc, lookup_setKey_self]
    | false => simp [mergePair, hc]
  · intro hfalse
    simp [mergePair, hfalse]
  · intro c hc hg bs
    exact mergeBatches_keeps k c hg bs acc hc

/-- C1 witness: a concrete accumulator entry with a real value survives a later
batch that reports the same key. -/
theorem C1_witness :
    lookupKey (mergeBatches [("委托人", "王五")] [some [("委托人", "张三")]]) "委托人"
      = some "王五" :=
  (C1_merge_policy [("委托人", "王五")] "委托人" "x").2.2.1 "王五" (by decide) (by decide) _

/-- C2 counterexample: the schema `ALL_FIELDS` has 34 keys, not the 23 the
claim asserts. -/
theorem C2_counterexample : ALL_FIELDS.length = 34 ∧ ALL_FIELDS.length ≠ 23 := by decide

/-- C2 (amended): every field map produced by `extract_info_from_pdf` binds
every one of the 34 (not 23) schema keys to a defined string value, and any
key unresolved after all batches is set to the sentinel. -/
theorem C2_schema_invariant (batches : List (Option (List (String × String)))) :
    ALL_FIELDS.length = 34
  ∧ (∀ f ∈ ALL_FIELDS, ∃ v, lookupKey (extract_info_from_pdf batches) f = some v)
  ∧ (∀ f ∈ ALL_FIELDS, lookupKey (mergeBatches [] batches) f = none →
      lookupKey (extract_info_from_pdf batches) f = some sentinel) := by
  refine ⟨rfl, ?_, ?_⟩
  · intro f hf
    exact backfill_some f ALL_FIELDS _ hf
  · intro f hf hnone
    exact backfill_fills f ALL_FIELDS _ hf hnone

/-- C2 witness: with no batches at all, the field 权属人 is present and holds
the sentinel. -/
theorem C2_witness :
    ALL_FIELDS.length = 34
  ∧ (∃ v, lookupKey (extract_info_from_pdf []) "权属人" = some v)
  ∧ lookupKey (extract_info_from_pdf []) "权属人" = some sentinel :=
  ⟨(C2_schema_invariant []).1,
   (C2_schema_invariant []).2.1 "权属人" (by decide),
   (C2_schema_invariant []).2.2 "权属人" (by decide) rfl⟩

/-- C10: a value in the final extraction map is either the sentinel or a
non-empty string different from the sentinel — never the empty string. -/
theorem C10_no_empty_value (batches : List (Option (List (String × String))))
    (k v : String) (h : lookupKey (extract_info_from_pdf batches) k = some v) :
    v = sentinel ∨ (v ≠ "" ∧ v ≠ sentinel) := by
  unfold extract_info_from_pdf at h
  rcases backfill_cases k v ALL_FIELDS _ h with h2 | h2
  · have hg : GoodAcc (mergeBatches [] batches) :=
      mergeBatches_good batches [] (by intro k' v' hv'; simp [lookupKey] at hv')
    exact Or.inr ((goodVal_iff v).mp (hg _ _ h2))
  · exact Or.inl h2

/-- C10 witness: a concrete extraction run whose value for 权属人 is the
non-empty, non-sentinel string 张三. -/
theorem C10_witness :
    "张三" = sentinel ∨ ("张三" ≠ "" ∧ "张三" ≠ sentinel) :=
  C10_no_empty_value [some [("权属人", "张三")]] "权属人" "张三" (by decide)

/-! ### Python string primitives used by `fill_template` and
`generate_surrounding_description` -/

/-- Fuel-indexed core of Python `str.replace`: scan left to right, replace each
non-overlapping occurrence of `pat` by `rep`, never re-scanning the
replacement.  `fuel` at least the list length makes the fuel irrelevant. -/
def replaceGo (pat rep : List Char) : List Char → Nat → List Char
  | l, 0 => l
  | l, fuel + 1 =>
    match l with
    | [] => []
    | c :: rest =>
      if pat.isPrefixOf (c :: rest) then
        rep ++ replaceGo pat rep ((c :: rest).drop pat.length) fuel
      else c :: replaceGo pat rep rest fuel

/-- `text.replace(pat, rep)` on character lists. -/
def pyReplaceL (pat rep l : List Char) : List Char := replaceGo pat rep l l.length

/-- Whether `pat` occurs as a contiguous run somewhere in `l`. -/
def occursB (pat : List Char) : List Char → Bool
  | [] => pat.isEmpty
  | c :: rest => pat.isPrefixOf (c :: rest) || occursB pat rest

theorem replaceGo_nil (pat rep : List Char) : ∀ fuel, replaceGo pat rep [] fuel = [] := by
  intro fuel; cases fuel <;> rfl

theorem replaceGo_fuel (pat rep : List Char) (hpat : pat ≠ []) :
    ∀ (fuel fuel' : Nat) (l : List Char), l.length ≤ fuel → l.length ≤ fuel' →
      replaceGo pat rep l fuel = replaceGo pat rep l fuel' := by
  intro fuel
  induction fuel with
  | zero =>
    intro fuel' l h _
    have : l = [] := List.eq_nil_of_length_eq_zero (Nat.le_zero.mp h)
    subst this
    rw [replaceGo_nil, replaceGo_nil]
  | succ f ih =>
    intro fuel' l h h'
    cases l with
    | nil => rw [replaceGo_nil, replaceGo_nil]
    | cons c rest =>
      cases fuel' with
      | zero => simp at h'
      | succ f' =>
        have hplen : 1 ≤ pat.length := by
          cases pat with
          | nil => exact absurd rfl hpat
          | cons _ _ => simp
        show (if pat.isPrefixOf (c :: rest) then
                rep ++ replaceGo pat rep ((c :: rest).drop pat.length) f
              else c :: replaceGo pat rep rest f) = _

        by_cases hp : pat.isPrefixOf (c :: rest)
        · rw [if_pos hp, replaceGo, if_pos hp]
          congr 1
          refine ih f' _ ?_ ?_ <;>
            simp only [List.length_drop, List.length_cons] at h h' ⊢ <;> omega
        · rw [if_neg hp, replaceGo, if_neg hp]
          congr 1
          refine ih f' _ ?_ ?_ <;>
            simp only [List.length_cons] at h h' ⊢ <;> omega

theorem pyReplaceL_nil (pat rep : List Char) : pyReplaceL pat rep [] = [] := rfl

theorem pyReplaceL_cons (pat rep : List Char) (hpat : pat ≠ []) (c : Char) (rest : List Char) :
    pyReplaceL pat rep (c :: rest) =
      if pat.isPrefixOf (c :: rest) then
        rep ++ pyReplaceL pat rep ((c :: rest).drop pat.length)
      else c :: pyReplaceL pat rep rest := by
  have hplen : 1 ≤ pat.length := by
    cases pat with
    | nil => exact absurd rfl hpat
    | cons _ _ => simp
  show replaceGo pat rep (c :: rest) (rest.length + 1) = _
  rw [replaceGo]
  by_cases hp : pat.isPrefixOf (c :: rest)
  · rw [if_pos hp, if_pos hp]
    congr 1
    refine replaceGo_fuel pat rep hpat _ _ _ ?_ ?_ <;>
      simp only [List.length_drop, List.length_cons] <;> omega
  · rw [if_neg hp, if_neg hp]
    rfl

theorem pyReplaceL_not_occurs (pat rep : List Char) (hpat : pat ≠ []) :
    ∀ l : List Char, occursB pat l = false → pyReplaceL pat rep l = l := by
  intro l
  induction l with
  | nil => intro _; rfl
  | cons c rest ih =>
    intro h
    simp only [occursB, Bool.or_eq_false_iff] at h
    rw [pyReplaceL_cons pat rep hpat, if_neg (by simp [h.1]), ih h.2]

/-- `pat` first occurs in `l` at index `n`. -/
def FirstOcc (pat l : List Char) (n : Nat) : Prop :=
  pat <+: l.drop n ∧ ∀ m < n, ¬ pat <+: l.drop m

theorem pyReplaceL_firstOcc (pat rep : List Char) (hpat : pat ≠ []) :
    ∀ (n : Nat) (l : List Char), FirstOcc pat l n →
      pyReplaceL pat rep l =
        l.take n ++ rep ++ pyReplaceL pat rep (l.drop (n + pat.length)) := by
  intro n
  induction n with
  | zero =>
    intro l h
    obtain ⟨hp, _⟩ := h
    rw [List.drop_zero] at hp
    cases l with
    | nil =>
      rw [List.prefix_nil] at hp
      exact absurd hp hpat
    | cons c rest =>
      rw [pyReplaceL_cons pat rep hpat,
          if_pos (List.isPrefixOf_iff_prefix.mpr hp)]
      simp
  | succ m ih =>
    intro l h
    obtain ⟨hp, hmin⟩ := h
    cases l with
    | nil =>
      rw [List.drop_nil, List.prefix_nil] at hp
      exact absurd hp hpat
    | cons c rest =>
      have hnot : ¬ pat.isPrefixOf (c :: rest) := by
        rw [List.isPrefixOf_iff_prefix]
        have := hmin 0 (Nat.succ_pos m)
        rwa [List.drop_zero] at this
      rw [pyReplaceL_cons pat rep hpat, if_neg hnot]
      have hfo : FirstOcc pat rest m := by
        constructor
        · rwa [List.drop_succ_cons] at hp
        · intro j hj
          have := hmin (j + 1) (Nat.succ_lt_succ hj)
          rwa [List.drop_succ_cons] at this
      rw [ih rest hfo]
      simp [Nat.succ_add]

/-- The `\x7b\x7b` + key + `\x7d\x7d` placeholder token, `"{{" + key + "}}"`. -/
def tokenL (k : String) : List Char :=
  '\x7b' :: '\x7b' :: (k.data ++ ['\x7d', '\x7d'])

theorem tokenL_ne_nil (k : String) : tokenL k ≠ [] := by simp [tokenL]

/-- `str(value) if value else ""`: the replacement text for a field value. -/
def pyValueStr (v : String) : String := if v = "" then "" else v

theorem pyValueStr_eq (v : String) : pyValueStr v = v := by
  unfold pyValueStr; split <;> simp_all

/-- The `for key, value in data.items(): xml_content = xml_content.replace(...)`
loop of `fill_template` (app.py 230-231), over character lists. -/
def substituteL (l : List Char) (fields : List (String × String)) : List Char :=
  fields.foldl (fun s kv => pyReplaceL (tokenL kv.1) (pyValueStr kv.2).data s) l

/-- Placeholder substitution on strings. -/
def substitute (xmlText : String) (fields : List (String × String)) : String :=
  ⟨substituteL xmlText.data fields⟩

theorem substituteL_not_occurs :
    ∀ (fields : List (String × String)) (l : List Char),
      (∀ kv ∈ fields, occursB (tokenL kv.1) l = false) → substituteL l fields = l := by
  intro fields
  induction fields with
  | nil => intro l _; rfl
  | cons kv rest ih =>
    intro l h
    have h1 : pyReplaceL (tokenL kv.1) (pyValueStr kv.2).data l = l :=
      pyReplaceL_not_occurs _ _ (tokenL_ne_nil kv.1) l (h kv (List.mem_cons_self _ _))
    show substituteL (pyReplaceL (tokenL kv.1) (pyValueStr kv.2).data l) rest = l
    rw [h1]
    exact ih l (fun kv' hkv' => h kv' (List.mem_cons_of_mem _ hkv'))

theorem substitute_not_occurs (t : String) (fields : List (String × String))
    (h : ∀ kv ∈ fields, occursB (tokenL kv.1) t.data = false) :
    substitute t fields = t := by
  unfold substitute
  rw [substituteL_not_occurs fields t.data h]

/-- Scenario D field map: 报告编号=R-2024-001. -/
def scenD_fields : List (String × String) := [("报告编号", "R-2024-001")]

/-- Scenario D template text with the 报告编号 placeholder twice. -/
def scenD_text : String := ⟨tokenL "报告编号" ++ "与".data ++ tokenL "报告编号"⟩

/-- Scenario D expected output: both occurrences replaced identically. -/
def scenD_expected : String := "R-2024-001与R-2024-001"

/-- C5: each occurrence of a key's placeholder token is replaced left-to-right
by the string form of the key's value (Scenario D: two occurrences replaced
identically); an empty value substitutes as the empty string, never the
sentinel word; tokens whose key is absent from the field map are left
untouched and no error is raised. -/
theorem C5_placeholder_substitution (key v : String) (n : Nat) (l : List Char)
    (t : String) (fields : List (String × String)) :
    (FirstOcc (tokenL key) l n →
       pyReplaceL (tokenL key) (pyValueStr v).data l
         = l.take n ++ (pyValueStr v).data
             ++ pyReplaceL (tokenL key) (pyValueStr v).data
                 (l.drop (n + (tokenL key).length)))
  ∧ ((∀ kv ∈ fields, occursB (tokenL kv.1) t.data = false) → substitute t fields = t)
  ∧ (pyValueStr "" = "" ∧ pyValueStr "" ≠ sentinel)
  ∧ substitute scenD_text scenD_fields = scenD_expected := by
  refine ⟨?_, substitute_not_occurs t fields, ⟨rfl, by decide⟩, by decide⟩
  intro h
  exact pyReplaceL_firstOcc _ _ (tokenL_ne_nil key) n l h

/-- C5 witness: a placeholder whose key is not in the field map survives
substitution unchanged. -/
theorem C5_witness :
    substitute ⟨tokenL "地址"⟩ [("编号", "X")] = ⟨tokenL "地址"⟩ :=
  (C5_placeholder_substitution "编号" "X" 0 [] ⟨tokenL "地址"⟩ [("编号", "X")]).2.1
    (by decide)

/-- C6 counterexample field map: no value contains the token syntax, yet
substitution is not idempotent. -/
def C6_fields : List (String × String) := [("aXb", "Y"), ("k", "X")]

/-- C6 counterexample text `{{a{{k}}b}}` (braces escaped). -/
def C6_text : String := "\x7b\x7ba\x7b\x7bk\x7d\x7db\x7d\x7d"

/-- C6 counterexample: with text `{{a{{k}}b}}` and fields aXb=Y, k=X — none
of whose values contain `{{` or `}}` — the first pass yields `{{aXb}}` and the
second pass rewrites it to `Y`, so substitution is not idempotent under the
claim's stated side condition. -/
theorem C6_counterexample :
    (∀ kv ∈ C6_fields,
       occursB "\x7b\x7b".data kv.2.data = false
       ∧ occursB "\x7d\x7d".data kv.2.data = false)
  ∧ substitute (substitute C6_text C6_fields) C6_fields
      ≠ substitute C6_text C6_fields := by
  decide

/-- C6 (amended): substitution is idempotent provided no `{{key}}` token for a
key of the field map occurs in the once-substituted text (the absence of the
token syntax from the substituted values alone does not guarantee this, since
a value can combine with surrounding text to form a new token of another
key). -/
theorem C6_idempotent (t : String) (fields : List (String × String))
    (h : ∀ kv ∈ fields, occursB (tokenL kv.1) (substitute t fields).data = false) :
    substitute (substitute t fields) fields = substitute t fields :=
  substitute_not_occurs (substitute t fields) fields h

/-- C6 witness: a concrete idempotent run. -/
theorem C6_witness :
    substitute (substitute "hello" [("k", "v")]) [("k", "v")]
      = substitute "hello" [("k", "v")] :=
  C6_idempotent "hello" [("k", "v")] (by decide)

/-! ### Python `str.strip` and `str.split` for the narrative parser -/

/-- The whitespace characters removed by Python `str.strip()` (ASCII part). -/
def isPySpace (c : Char) : Bool :=
  c == ' ' || c == '\t' || c == '\n' || c == '\r' || c == '\x0b' || c == '\x0c'

/-- `text.strip()`: drop whitespace from both ends. -/
def pyStrip (l : List Char) : List Char :=
  ((l.dropWhile isPySpace).reverse.dropWhile isPySpace).reverse

theorem dropWhile_idem (p : Char → Bool) :
    ∀ l : List Char, (l.dropWhile p).dropWhile p = l.dropWhile p := by
  intro l
  induction l with
  | nil => rfl
  | cons c rest ih =>
    by_cases h : p c
    · simp [List.dropWhile_cons, h, ih]
    · simp [List.dropWhile_cons, h]

theorem pyStrip_idem (l : List Char) : pyStrip (pyStrip l) = pyStrip l := by
  unfold pyStrip
  set m := l.dropWhile isPySpace with hm
  set r := m.reverse.dropWhile isPySpace with hr
  have hrdw : r.dropWhile isPySpace = r := by
    rw [hr, dropWhile_idem]
  have h1 : r.reverse.dropWhile isPySpace = r.reverse := by
    rcases hrr : r.reverse with _ | ⟨c, t⟩
    · rfl
    · have hpre : r.reverse <+: m := by
        have h0 : r <:+ m.reverse := by
          rw [hr]; exact List.dropWhile_suffix isPySpace
        have := List.reverse_prefix.mpr h0
        rwa [List.reverse_reverse] at this
      have hm2 : m.dropWhile isPySpace = m := by
        rw [hm, dropWhile_idem]
      obtain ⟨s, hs⟩ := hpre
      rw [hrr, List.cons_append] at hs
      have hpc : isPySpace c = false := by
        by_contra hb
        rw [Bool.not_eq_false] at hb
        rw [← hs, List.dropWhile_cons, hb, if_pos rfl] at hm2
        have hle : ((t ++ s).dropWhile isPySpace).length ≤ (t ++ s).length :=
          (List.dropWhile_sublist isPySpace).length_le
        rw [hm2] at hle
        simp at hle
      simp [List.dropWhile_cons, hpc]
  rw [h1, List.reverse_reverse, hrdw]

/-- Fuel-indexed core of Python `str.split(sep)` for a non-empty separator:
left-to-right, non-overlapping. -/
def splitGo (sep : List Char) : List Char → Nat → List (List Char)
  | l, 0 => [l]
  | l, fuel + 1 =>
    match l with
    | [] => [[]]
    | c :: rest =>
      if sep.isPrefixOf (c :: rest) then
        [] :: splitGo sep ((c :: rest).drop sep.length) fuel
      else
        match splitGo sep rest fuel with
        | [] => [[c]]
        | s :: ss => (c :: s) :: ss

/-- `text.split(sep)` on character lists. -/
def pySplit (sep l : List Char) : List (List Char) := splitGo sep l l.length

theorem splitGo_nil (sep : List Char) : ∀ fuel, splitGo sep [] fuel = [[]] := by
  intro fuel; cases fuel <;> rfl

theorem splitGo_fuel (sep : List Char) (hsep : sep ≠ []) :
    ∀ (fuel fuel' : Nat) (l : List Char), l.length ≤ fuel → l.length ≤ fuel' →
      splitGo sep l fuel = splitGo sep l fuel' := by
  intro fuel
  induction fuel with
  | zero =>
    intro fuel' l h _
    have : l = [] := List.eq_nil_of_length_eq_zero (Nat.le_zero.mp h)
    subst this
    rw [splitGo_nil sep, splitGo_nil sep]
  | succ f ih =>
    intro fuel' l h h'
    cases l with
    | nil => rw [splitGo_nil sep, splitGo_nil sep]
    | cons c rest =>
      cases fuel' with
      | zero => simp at h'
      | succ f' =>
        have hplen : 1 ≤ sep.length := by
          cases sep with
          | nil => exact absurd rfl hsep
          | cons _ _ => simp
        simp only [splitGo]
        by_cases hp : sep.isPrefixOf (c :: rest)
        · rw [if_pos hp, if_pos hp]
          congr 1
          refine ih f' _ ?_ ?_ <;>
            simp only [List.length_drop, List.length_cons] at h h' ⊢ <;> omega
        · rw [if_neg hp, if_neg hp]
          have heq : splitGo sep rest f = splitGo sep rest f' := by
            refine ih f' _ ?_ ?_ <;>
              simp only [List.length_cons] at h h' ⊢ <;> omega
          rw [heq]

theorem pySplit_cons (sep : List Char) (hsep : sep ≠ []) (c : Char) (rest : List Char) :
    pySplit sep (c :: rest) =
      if sep.isPrefixOf (c :: rest) then
        [] :: pySplit sep ((c :: rest).drop sep.length)
      else
        match pySplit sep rest with
        | [] => [[c]]
        | s :: ss => (c :: s) :: ss := by
  have hplen : 1 ≤ sep.length := by
    cases sep with
    | nil => exact absurd rfl hsep
    | cons _ _ => simp
  show splitGo sep (c :: rest) (rest.length + 1) = _
  simp only [splitGo]
  by_cases hp : sep.isPrefixOf (c :: rest)
  · rw [if_pos hp, if_pos hp]
    congr 1
    refine splitGo_fuel sep hsep _ _ _ ?_ ?_ <;>
      simp only [List.length_drop, List.length_cons] <;> omega
  · rw [if_neg hp, if_neg hp]
    rfl

/-- Modelled on the claim's words for comparison with the code: split at the
FIRST occurrence of the delimiter only, returning the first segment and, when
the delimiter occurs, everything after it. -/
def splitFirst_spec (sep : List Char) : List Char → List Char × Option (List Char)
  | [] => ([], none)
  | c :: rest =>
    if sep.isPrefixOf (c :: rest) then ([], some ((c :: rest).drop sep.length))
    else
      let p := splitFirst_spec sep rest
      (c :: p.1, p.2)

theorem splitFirst_not_occurs (sep : List Char) :
    ∀ l : List Char, occursB sep l = false → splitFirst_spec sep l = (l, none) := by
  intro l
  induction l with
  | nil => intro _; rfl
  | cons c rest ih =>
    intro h
    simp only [occursB, Bool.or_eq_false_iff] at h
    have hp : ¬ sep.isPrefixOf (c :: rest) = true := by simp [h.1]
    simp only [splitFirst_spec, if_neg hp, ih h.2]

theorem pySplit_decomp (sep : List Char) (hsep : sep ≠ []) :
    ∀ l : List Char,
      pySplit sep l =
        (splitFirst_spec sep l).1 ::
          (match (splitFirst_spec sep l).2 with
           | none => []
           | some r => pySplit sep r) := by
  intro l
  induction l with
  | nil => rfl
  | cons c rest ih =>
    rw [pySplit_cons sep hsep]
    by_cases hp : sep.isPrefixOf (c :: rest)
    · rw [if_pos hp]
      simp only [splitFirst_spec, if_pos hp]
    · rw [if_neg hp]
      rw [ih]
      simp only [splitFirst_spec, if_neg hp]

/-- The two-paragraph delimiter token. -/
def SPLIT_DELIM : String := "---SPLIT---"

/-- The response handling of `generate_surrounding_description` (app.py
211-215): strip the response, `split("---SPLIT---")`, first part stripped,
second part stripped when present, else empty. -/
def generate_description_parse (response : String) : String × String :=
  let text := pyStrip response.data
  let parts := pySplit SPLIT_DELIM.data text
  let para1 := match parts with
               | [] => text
               | p :: _ => pyStrip p
  let para2 := match parts with
               | _ :: p2 :: _ => pyStrip p2
               | _ => []
  (⟨para1⟩, ⟨para2⟩)

/-- C9 counterexample response: the delimiter occurs twice. -/
def C9_resp : String := "P1---SPLIT---P2---SPLIT---P3"

/-- C9 counterexample: on a response with two delimiters the code's second
paragraph is the text between the first and second occurrence (`P2`), not the
trimmed remainder after the first occurrence (`P2---SPLIT---P3`) that
splitting on the first occurrence would give. -/
theorem C9_counterexample :
    (generate_description_parse C9_resp).2 = "P2"
  ∧ (⟨pyStrip ((splitFirst_spec SPLIT_DELIM.data
        (pyStrip C9_resp.data)).2.getD [])⟩ : String) = "P2---SPLIT---P3"
  ∧ (generate_description_parse C9_resp).2
      ≠ ⟨pyStrip ((splitFirst_spec SPLIT_DELIM.data
           (pyStrip C9_resp.data)).2.getD [])⟩ := by
  decide

/-- C9 (amended): the first paragraph is the trimmed segment before the first
delimiter occurrence, and with no delimiter it is the full trimmed response
with an empty second paragraph (Scenario C), with no retry and no error; but
the second paragraph is the trimmed text between the first and second
delimiter occurrences (the code splits on every occurrence and takes
`parts[1]`), not everything after the first occurrence. -/
theorem C9_narrative_split (resp : String) :
    (occursB SPLIT_DELIM.data (pyStrip resp.data) = false →
       generate_description_parse resp = (⟨pyStrip resp.data⟩, ""))
  ∧ (generate_description_parse resp).1
      = ⟨pyStrip (splitFirst_spec SPLIT_DELIM.data (pyStrip resp.data)).1⟩
  ∧ (∀ r, (splitFirst_spec SPLIT_DELIM.data (pyStrip resp.data)).2 = some r →
       (generate_description_parse resp).2
         = ⟨pyStrip (splitFirst_spec SPLIT_DELIM.data r).1⟩)
  ∧ ((splitFirst_spec SPLIT_DELIM.data (pyStrip resp.data)).2 = none →
       (generate_description_parse resp).2 = "") := by
  have hsep : SPLIT_DELIM.data ≠ [] := by decide
  have hdec := pySplit_decomp SPLIT_DELIM.data hsep (pyStrip resp.data)
  refine ⟨?_, ?_, ?_, ?_⟩
  · intro h
    have hsf := splitFirst_not_occurs SPLIT_DELIM.data (pyStrip resp.data) h
    rw [hsf] at hdec
    simp only [generate_description_parse, hdec]
    rw [pyStrip_idem]
  · simp only [generate_description_parse, hdec]
  · intro r hr
    rw [hr] at hdec
    have hdec' : pySplit SPLIT_DELIM.data (pyStrip resp.data)
        = (splitFirst_spec SPLIT_DELIM.data (pyStrip resp.data)).1
            :: pySplit SPLIT_DELIM.data r := hdec
    rw [pySplit_decomp SPLIT_DELIM.data hsep r] at hdec'
    simp only [generate_description_parse, hdec']
  · intro hnone
    rw [hnone] at hdec
    simp only [generate_description_parse, hdec]

/-- C9 witness: Scenario C — a response with no delimiter yields the full
trimmed response as the first paragraph and an empty second paragraph. -/
theorem C9_witness :
    generate_description_parse "  hello world  " = ("hello world", "") :=
  (C9_narrative_split "  hello world  ").1 (by decide)

/-! ### ZIP archives as (member name, member bytes) lists -/

/-- A ZIP archive: the ordered list of its members' (name, content). -/
abbrev Zip : Type := List (String × String)

/-- `ZipFile.read(name)`: content of the member with that name.  Python keys
its name table last-wins, hence the last matching member. -/
def zipRead (members : Zip) (name : String) : Option String :=
  ((List.filter (fun e => e.1 == name) members).getLast?).map (fun e => e.2)

theorem zipRead_eq (members : Zip) (m : String × String)
    (hnd : (members.map Prod.fst).Nodup) (hm : m ∈ members) :
    zipRead members m.1 = some m.2 := by
  induction members with
  | nil => simp at hm
  | cons x rest ih =>
    rw [List.map_cons, List.nodup_cons] at hnd
    rcases List.mem_cons.mp hm with hx | hx
    · subst hx
      have hfilter : List.filter (fun e => e.1 == m.1) rest = [] := by
        rw [List.filter_eq_nil_iff]
        intro e he
        simp only [beq_iff_eq]
        intro heq
        exact hnd.1 (heq ▸ List.mem_map_of_mem Prod.fst he)
      unfold zipRead
      rw [List.filter_cons_of_pos (by simp), hfilter]
      rfl
    · have hne : (x.1 == m.1) = false := by
        simp only [beq_eq_false_iff_ne, ne_eq]
        intro heq
        exact hnd.1 (heq ▸ List.mem_map_of_mem Prod.fst hx)
      unfold zipRead
      rw [List.filter_cons, hne]
      simp only [Bool.false_eq_true, if_false]
      exact ih hnd.2 hx

/-- The member-rewrite loop of `fill_template` (app.py 234-241): every member
is streamed into the new archive, `word/document.xml` replaced by the new
content, all others re-read by name and copied. -/
def fill_template_members (members : Zip) (newXml : String) : Zip :=
  members.map (fun item =>
    if item.1 = "word/document.xml" then (item.1, newXml)
    else (item.1, (zipRead members item.1).getD ""))

/-- The member-rewrite loop of `replace_image_in_docx` (app.py 271-280): the
relationships member gets the patched content, the targeted media member is
written under the new filename with the new image bytes, all others are
copied. -/
def replace_image_members (members : Zip) (oldFilename newFilename : String)
    (newRels newImage : String) : Zip :=
  members.map (fun item =>
    if item.1 = "word/_rels/document.xml.rels" then (item.1, newRels)
    else if item.1 = "word/media/" ++ oldFilename then
      ("word/media/" ++ newFilename, newImage)
    else (item.1, (zipRead members item.1).getD ""))

/-- C3: archive round-trip — for an archive with uniquely-named members,
every member not explicitly overridden appears in the output archive under
its own name with identical content; `fill_template` keeps the full member
name list unchanged. -/
theorem C3_archive_roundtrip (members : Zip) (hnd : (members.map Prod.fst).Nodup) :
    (∀ newXml, (fill_template_members members newXml).map Prod.fst
        = members.map Prod.fst)
  ∧ (∀ m ∈ members, m.1 ≠ "word/document.xml" →
       ∀ newXml, m ∈ fill_template_members members newXml)
  ∧ (∀ m ∈ members, ∀ oldF newF rels img,
       m.1 ≠ "word/_rels/document.xml.rels" → m.1 ≠ "word/media/" ++ oldF →
       m ∈ replace_image_members members oldF newF rels img) := by
  refine ⟨?_, ?_, ?_⟩
  · intro newXml
    unfold fill_template_members
    rw [List.map_map]
    apply List.map_congr_left
    intro item _
    by_cases h : item.1 = "word/document.xml" <;> simp [h]
  · intro m hm hne newXml
    have hfm : (fun item =>
        if item.1 = "word/document.xml" then (item.1, newXml)
        else (item.1, (zipRead members item.1).getD "")) m = m := by
      show (if m.1 = "word/document.xml" then (m.1, newXml)
            else (m.1, (zipRead members m.1).getD "")) = m
      rw [if_neg hne, zipRead_eq members m hnd hm]
      rfl
    have := List.mem_map_of_mem (fun item =>
        if item.1 = "word/document.xml" then (item.1, newXml)
        else (item.1, (zipRead members item.1).getD "")) hm
    rw [hfm] at this
    exact this
  · intro m hm oldF newF rels img hne1 hne2
    have hfm : (fun item =>
        if item.1 = "word/_rels/document.xml.rels" then (item.1, rels)
        else if item.1 = "word/media/" ++ oldF then
          ("word/media/" ++ newF, img)
        else (item.1, (zipRead members item.1).getD "")) m = m := by
      show (if m.1 = "word/_rels/document.xml.rels" then (m.1, rels)
            else if m.1 = "word/media/" ++ oldF then
              ("word/media/" ++ newF, img)
            else (m.1, (zipRead members m.1).getD "")) = m
      rw [if_neg hne1, if_neg hne2, zipRead_eq members m hnd hm]
      rfl
    have := List.mem_map_of_mem (fun item =>
        if item.1 = "word/_rels/document.xml.rels" then (item.1, rels)
        else if item.1 = "word/media/" ++ oldF then
          ("word/media/" ++ newF, img)
        else (item.1, (zipRead members item.1).getD "")) hm
    rw [hfm] at this
    exact this

/-- C3 witness archive. -/
def C3_members : Zip :=
  [("word/document.xml", "DOC"), ("a.xml", "A"),
   ("word/_rels/document.xml.rels", "RELS"), ("word/media/img1.png", "IMG")]

/-- C3 witness: the untouched member `a.xml` survives both rewrites with
identical content, and `fill_template` keeps all member names. -/
theorem C3_witness :
    (fill_template_members C3_members "NEW").map Prod.fst = C3_members.map Prod.fst
  ∧ ("a.xml", "A") ∈ fill_template_members C3_members "NEW"
  ∧ ("a.xml", "A") ∈ replace_image_members C3_members "img1.png" "new.png" "R2" "I2" :=
  ⟨(C3_archive_roundtrip C3_members (by decide)).1 "NEW",
   (C3_archive_roundtrip C3_members (by decide)).2.1 ("a.xml", "A") (by decide)
     (by decide) "NEW",
   (C3_archive_roundtrip C3_members (by decide)).2.2 ("a.xml", "A") (by decide)
     "img1.png" "new.png" "R2" "I2" (by decide) (by decide)⟩

/-! ### The regex lookups of `replace_image_in_docx` (app.py 252-263) -/

/-- `lit` matches literally at the start of `l`; return the rest. -/
def dropLit (lit l : List Char) : Option (List Char) :=
  if lit.isPrefixOf l then some (l.drop lit.length) else none

/-- Maximal run of decimal digits (greedy `\d+`), with the rest. -/
def takeDigits : List Char → List Char × List Char
  | [] => ([], [])
  | c :: rest =>
    if c.isDigit then
      let p := takeDigits rest
      (c :: p.1, p.2)
    else ([], c :: rest)

/-- `[^>]*` followed by `lit`: does `lit` start somewhere within the run of
non-'>' characters (some backtracking split succeeds)? -/
def scanWindow (lit : List Char) : List Char → Bool
  | [] => lit.isPrefixOf []
  | c :: rest => lit.isPrefixOf (c :: rest) || (c != '>' && scanWindow lit rest)

/-- Match the pattern `r:embed="(rId\d+)"[^>]*w:comment="tag"` at the start of
`l`, returning the captured relationship id. -/
def matchEmbedAt (tag l : List Char) : Option (List Char) :=
  match dropLit "r:embed=\"rId".data l with
  | none => none
  | some r1 =>
    match takeDigits r1 with
    | ([], _) => none
    | (ds, r2) =>
      match dropLit "\"".data r2 with
      | none => none
      | some r3 =>
        if scanWindow ("w:comment=\"".data ++ tag ++ "\"".data) r3 then
          some ("rId".data ++ ds)
        else none

/-- `re.search` of the embed pattern: leftmost match over the document text. -/
def findEmbed (tag : List Char) : List Char → Option (List Char)
  | [] => none
  | c :: rest =>
    match matchEmbedAt tag (c :: rest) with
    | some rid => some rid
    | none => findEmbed tag rest

/-- Maximal run of non-quote characters (greedy `[^"]+`), with the rest. -/
def takeNonQuote : List Char → List Char × List Char
  | [] => ([], [])
  | c :: rest =>
    if c = '"' then ([], c :: rest)
    else
      let p := takeNonQuote rest
      (c :: p.1, p.2)

/-- Match `Target="media/([^"]+)"` at the start of `l`, returning the
captured media filename. -/
def matchTargetAt (l : List Char) : Option (List Char) :=
  match dropLit "Target=\"media/".data l with
  | none => none
  | some r =>
    match takeNonQuote r with
    | ([], _) => none
    | (fname, rest) =>
      match rest with
      | '"' :: _ => some fname
      | _ => none

/-- Greedy `[^>]*`: try the longest run of non-'>' characters first, then
backtrack to shorter runs (Python regex backtracking). -/
def greedyScan (f : List Char → Option (List Char)) : List Char → Option (List Char)
  | [] => f []
  | c :: rest =>
    if c = '>' then f (c :: rest)
    else
      match greedyScan f rest with
      | some r => some r
      | none => f (c :: rest)

/-- Match `Id="rid"[^>]*Target="media/([^"]+)"` at the start of `l`. -/
def matchRelAt (rid l : List Char) : Option (List Char) :=
  match dropLit ("Id=\"".data ++ rid ++ "\"".data) l with
  | none => none
  | some r => greedyScan matchTargetAt r

/-- `re.search` of the relationship pattern: leftmost match. -/
def findRel (rid : List Char) : List Char → Option (List Char)
  | [] => none
  | c :: rest =>
    match matchRelAt rid (c :: rest) with
    | some f => some f
    | none => findRel rid rest

/-- Result of one `replace_image_in_docx` run at the archive level: a missing
member raises (`keyError`), an unmatched placeholder or relationship returns
early leaving the file untouched (`noop`), otherwise the rewritten archive. -/
inductive ImgResult where
  | keyError : ImgResult
  | noop : ImgResult
  | rewritten : Zip → ImgResult
deriving DecidableEq

/-- `replace_image_in_docx` (app.py 244-280) at the archive level. -/
def replace_image_in_docx_zip (docx : Zip) (tag newBytes ext : String) : ImgResult :=
  match zipRead docx "word/_rels/document.xml.rels",
        zipRead docx "word/document.xml" with
  | some rels, some doc =>
    match findEmbed tag.data doc.data with
    | none => .noop
    | some rid =>
      match findRel rid rels.data with
      | none => .noop
      | some oldF =>
        let old : String := ⟨oldF⟩
        let newFilename : String := "replaced_" ++ tag.toLower ++ "." ++ ext
        let rels2 : String :=
          ⟨pyReplaceL ("media/" ++ old).data ("media/" ++ newFilename).data rels.data⟩
        .rewritten (replace_image_members docx old newFilename rels2 newBytes)
  | _, _ => .keyError

/-! ### Filesystem-level behaviour: temporary files and `os.replace` -/

/-- The filesystem: an association list from paths to archive contents. -/
abbrev FS : Type := List (String × Zip)

/-- Read a path. -/
def fsGet (fs : FS) (p : String) : Option Zip := lookupKey fs p

/-- (Over)write a path. -/
def fsSet (fs : FS) (p : String) (z : Zip) : FS := setKey fs p z

/-- Remove a path. -/
def fsDel (fs : FS) (p : String) : FS := List.filter (fun e => e.1 != p) fs

/-- `replace_image_in_docx` at the filesystem level: read the archive, rewrite
it, write the result to `docx_path + ".imgtmp"`, `os.replace` it onto the
destination.  `tmpFail` injects a failure while writing the temporary file,
leaving `hw` half-written there; `Except.error` carries the filesystem at the
moment the exception propagates. -/
def replace_image_io (fs : FS) (docxPath tag newBytes ext : String)
    (tmpFail : Bool) (hw : Zip) : Except FS FS :=
  match fsGet fs docxPath with
  | none => .error fs
  | some docx =>
    match replace_image_in_docx_zip docx tag newBytes ext with
    | .keyError => .error fs
    | .noop => .ok fs
    | .rewritten outZip =>
      if tmpFail then .error (fsSet fs (docxPath ++ ".imgtmp") hw)
      else .ok (fsSet (fsDel (fsSet fs (docxPath ++ ".imgtmp") outZip)
                        (docxPath ++ ".imgtmp")) docxPath outZip)

/-- `fill_template` at the filesystem level (app.py 218-241): check the
template exists, `shutil.copy` it over the destination, read
`word/document.xml` from the copy, substitute the placeholders, write the
rewritten archive to `output_path + ".tmp"`, `os.replace` it onto the
destination. -/
def fill_template_io (fs : FS) (templatePath outPath : String)
    (data : List (String × String)) (tmpFail : Bool) (hw : Zip) : Except FS FS :=
  match fsGet fs templatePath with
  | none => .error fs
  | some templ =>
    match zipRead templ "word/document.xml" with
    | none => .error (fsSet fs outPath templ)
    | some xml =>
      if tmpFail then
        .error (fsSet (fsSet fs outPath templ) (outPath ++ ".tmp") hw)
      else
        .ok (fsSet (fsDel (fsSet (fsSet fs outPath templ) (outPath ++ ".tmp")
                      (fill_template_members templ (substitute xml data)))
                    (outPath ++ ".tmp")) outPath
               (fill_template_members templ (substitute xml data)))

/-- The filesystem an errored run leaves behind, `none` on success. -/
def errFS : Except FS FS → Option FS
  | .error e => some e
  | .ok _ => none

theorem fsGet_set_self (fs : FS) (p : String) (z : Zip) :
    fsGet (fsSet fs p z) p = some z :=
  lookup_setKey_self fs p z

theorem fsGet_set_ne (fs : FS) (p q : String) (z : Zip) (h : q ≠ p) :
    fsGet (fsSet fs p z) q = fsGet fs q :=
  lookup_setKey_ne fs p q z h

/-- C7: image rewiring is a silent no-op — output archive identical to the
input, no exception — whenever the placeholder tag matches no drawing
reference in the document text, or the resolved relationship id cannot be
matched to a media filename in the relationships member; at the filesystem
level such a run succeeds leaving every path untouched. -/
theorem C7_image_rewire_noop (docx : Zip) (rels doc : String)
    (h1 : zipRead docx "word/_rels/document.xml.rels" = some rels)
    (h2 : zipRead docx "word/document.xml" = some doc)
    (tag newBytes ext : String) :
    (findEmbed tag.data doc.data = none →
       replace_image_in_docx_zip docx tag newBytes ext = ImgResult.noop)
  ∧ (∀ rid, findEmbed tag.data doc.data = some rid → findRel rid rels.data = none →
       replace_image_in_docx_zip docx tag newBytes ext = ImgResult.noop)
  ∧ (∀ (fs : FS) (dp : String) (tmpFail : Bool) (hw : Zip),
       fsGet fs dp = some docx → findEmbed tag.data doc.data = none →
       replace_image_io fs dp tag newBytes ext tmpFail hw = Except.ok fs) := by
  refine ⟨?_, ?_, ?_⟩
  · intro hfe
    simp only [replace_image_in_docx_zip, h1, h2, hfe]
  · intro rid hfe hfr
    simp only [replace_image_in_docx_zip, h1, h2, hfe, hfr]
  · intro fs dp tmpFail hw hget hfe
    have hz : replace_image_in_docx_zip docx tag newBytes ext = ImgResult.noop := by
      simp only [replace_image_in_docx_zip, h1, h2, hfe]
    simp only [replace_image_io, hget, hz]

/-- C7 witness archive: members readable, but the document text contains no
matching drawing reference. -/
def C7_docx : Zip :=
  [("word/_rels/document.xml.rels", "<Relationships/>"),
   ("word/document.xml", "<w:document>no drawings here</w:document>")]

/-- C7 witness: with no matching reference the rewrite is a no-op at both the
archive and the filesystem level. -/
theorem C7_witness :
    replace_image_in_docx_zip C7_docx "IMAGE_PHOTO_1" "NEW" "png" = ImgResult.noop
  ∧ replace_image_io [("d.docx", C7_docx)] "d.docx" "IMAGE_PHOTO_1" "NEW" "png"
      false [] = Except.ok [("d.docx", C7_docx)] :=
  ⟨(C7_image_rewire_noop C7_docx "<Relationships/>"
      "<w:document>no drawings here</w:document>" rfl rfl
      "IMAGE_PHOTO_1" "NEW" "png").1 (by decide),
   (C7_image_rewire_noop C7_docx "<Relationships/>"
      "<w:document>no drawings here</w:document>" rfl rfl
      "IMAGE_PHOTO_1" "NEW" "png").2.2 [("d.docx", C7_docx)] "d.docx" false []
      rfl (by decide)⟩

/-- The C4 counterexample filesystem: the destination already holds an old
report, and the configured template archive lacks `word/document.xml`. -/
def C4_fs0 : FS :=
  [("out.docx", [("word/document.xml", "OLD")]), ("tpl.docx", [("a", "x")])]

/-- C4 counterexample: `fill_template` copies the template over the
destination before rewriting, so when the rewrite then fails (here: the
template has no `word/document.xml` member), the destination no longer holds
its prior content — the failed run did leave a changed file at the
destination path. -/
theorem C4_counterexample :
    errFS (fill_template_io C4_fs0 "tpl.docx" "out.docx" [] false [])
      = some (fsSet C4_fs0 "out.docx" [("a", "x")])
  ∧ fsGet (fsSet C4_fs0 "out.docx" [("a", "x")]) "out.docx"
      ≠ fsGet C4_fs0 "out.docx" := by
  refine ⟨rfl, by decide⟩

/-- C4 (amended): `replace_image_in_docx` never changes the destination on a
failed run (all its writes go to the `.imgtmp` path until the final atomic
replace); `fill_template`'s ZIP rewrite also goes through a `.tmp` path with
an atomic replace, so the destination never holds a half-written archive —
but because `fill_template` first copies the template onto the destination, a
failure after that copy leaves the destination holding the template copy
rather than its prior content; on success the destination holds exactly the
fully rewritten archive. -/
theorem C4_atomicity_amended :
    (∀ (fs : FS) (docxPath tag newBytes ext : String) (tmpFail : Bool)
       (hw : Zip) (fsE : FS),
       docxPath ++ ".imgtmp" ≠ docxPath →
       replace_image_io fs docxPath tag newBytes ext tmpFail hw = Except.error fsE →
       fsGet fsE docxPath = fsGet fs docxPath)
  ∧ (∀ (fs : FS) (tpl out : String) (data : List (String × String))
       (tmpFail : Bool) (hw : Zip) (fsE : FS),
       out ++ ".tmp" ≠ out →
       fill_template_io fs tpl out data tmpFail hw = Except.error fsE →
       fsGet fsE out = fsGet fs out ∨ fsGet fsE out = fsGet fs tpl)
  ∧ (∀ (fs : FS) (tpl out : String) (data : List (String × String))
       (templ : Zip) (xml : String) (tmpFail : Bool) (hw : Zip) (fsO : FS),
       out ++ ".tmp" ≠ out →
       fsGet fs tpl = some templ →
       zipRead templ "word/document.xml" = some xml →
       fill_template_io fs tpl out data tmpFail hw = Except.ok fsO →
       fsGet fsO out = some (fill_template_members templ (substitute xml data))) := by
  refine ⟨?_, ?_, ?_⟩
  · intro fs docxPath tag newBytes ext tmpFail hw fsE hne herr
    unfold replace_image_io at herr
    split at herr
    · cases herr
      rfl
    · split at herr
      · cases herr
        rfl
      · cases herr
      · split at herr
        · cases herr
          exact fsGet_set_ne fs _ docxPath hw (fun h => hne h.symm)
        · cases herr
  · intro fs tpl out data tmpFail hw fsE hne herr
    unfold fill_template_io at herr
    split at herr
    · cases herr
      exact Or.inl rfl
    · rename_i templ htpl
      split at herr
      · cases herr
        exact Or.inr (by rw [fsGet_set_self, htpl])
      · split at herr
        · cases herr
          refine Or.inr ?_
          rw [fsGet_set_ne _ _ out hw (fun h => hne h.symm), fsGet_set_self, htpl]
        · cases herr
  · intro fs tpl out data templ xml tmpFail hw fsO hne htpl hxml hok
    unfold fill_template_io at hok
    split at hok
    · cases hok
    · rename_i templ' htpl'
      rw [htpl] at htpl'
      have hT : templ' = templ := (Option.some.inj htpl').symm
      subst hT
      split at hok
      · rename_i hnone
        rw [hxml] at hnone
        cases hnone
      · rename_i xml' hxml'
        rw [hxml] at hxml'
        have hX : xml' = xml := (Option.some.inj hxml').symm
        subst hX
        split at hok
        · cases hok
        · cases hok
          rw [fsGet_set_self]

/-- C4 witness archive: a document whose placeholder `IMG1` resolves through
`rId5` to `media/image1.png`. -/
def C4_docxW : Zip :=
  [("word/_rels/document.xml.rels",
    "<Relationship Id=\"rId5\" Target=\"media/image1.png\"/>"),
   ("word/document.xml",
    "<a:blip r:embed=\"rId5\" w:comment=\"IMG1\"/>"),
   ("word/media/image1.png", "OLDBYTES")]

/-- C4 witness filesystem. -/
def C4_fsW : FS := [("d.docx", C4_docxW)]

/-- C4 witness: a failure while writing the `.imgtmp` file during a real image
rewrite leaves the destination archive unchanged. -/
theorem C4_witness :
    fsGet (fsSet C4_fsW ("d.docx" ++ ".imgtmp") [("half", "h")]) "d.docx"
      = fsGet C4_fsW "d.docx" :=
  C4_atomicity_amended.1 C4_fsW "d.docx" "IMG1" "NEWBYTES" "png" true
    [("half", "h")] _ (by decide) rfl

/-! ### `search_surroundings` (app.py 147-189) -/

/-- A geocoding response: an optional status field and the location strings
of the returned geocodes. -/
structure GeoResponse where
  status : Option String
  geocodes : List String
deriving DecidableEq

/-- A nearby-search response: an optional status field and the returned POIs
as (name, distance) pairs. -/
structure AroundResponse where
  status : Option String
  pois : List (String × String)
deriving DecidableEq

/-- The network environment: the geocoding call's outcome and the outcome of
the i-th nearby-search call; `Except.error` models a raised exception
carrying `str(e)`. -/
structure Net where
  geo : Except String GeoResponse
  around : Nat → Except String AroundResponse

/-- The Surroundings Record built by `search_surroundings`: the 坐标 field,
the five category lists keyed as in the result dict, and 搜索状态. -/
structure SurrRecord where
  coord : Option String
  cats : List (String × List String)
  status : String
deriving DecidableEq

/-- The category table of the search loop: (type filter, result key, radius). -/
def categoryTable : List (String × String × Nat) :=
  [ ("交通设施服务", "交通（地铁/公交）", 1000),
    ("中小学;高等院校;幼儿园", "教育（学校/幼儿园）", 1000),
    ("综合医院;诊所;药店", "医疗（医院/诊所）", 1500),
    ("购物服务;超级市场", "商业（商场/超市）", 1000),
    ("公园广场;风景名胜", "公园绿地", 1500) ]

/-- The five category lists of the freshly initialised result dict. -/
def initCats : List (String × List String) :=
  [ ("交通（地铁/公交）", []), ("教育（学校/幼儿园）", []),
    ("医疗（医院/诊所）", []), ("商业（商场/超市）", []), ("公园绿地", []) ]

/-- `result[key].append(...)` for each rendered POI. -/
def appendCat (cats : List (String × List String)) (key : String)
    (items : List String) : List (String × List String) :=
  cats.map (fun e => if e.1 = key then (e.1, e.2 ++ items) else e)

/-- One POI rendered as name（约 distance 米）. -/
def renderPoi (p : String × String) : String := p.1 ++ "（约" ++ p.2 ++ "米）"

/-- The category loop: one nearby search per table entry, appending up to 5
rendered POIs when the call succeeds with status 1 and a non-empty POI list;
a raised exception stops the loop and stamps the 搜索异常 status on whatever
was already accumulated. -/
def runAround (net : Nat → Except String AroundResponse) :
    Nat → List (String × String × Nat) → SurrRecord → SurrRecord
  | _, [], r => r
  | i, entry :: rest, r =>
    match net i with
    | .error e => { r with status := "搜索异常: " ++ e }
    | .ok resp =>
      runAround net (i + 1) rest
        (if resp.status = some "1" ∧ resp.pois ≠ [] then
           { r with
             cats := (appendCat r.cats entry.2.1 ((resp.pois.take 5).map renderPoi)) }
         else r)

/-- `search_surroundings` as a function of the network outcomes: geocode, and
on success run the five category searches. -/
def search_surroundings (net : Net) : SurrRecord :=
  let init : SurrRecord := { coord := none, cats := initCats, status := "成功" }
  match net.geo with
  | .error e => { init with status := "搜索异常: " ++ e }
  | .ok g =>
    match g.geocodes with
    | [] => { init with status := "地址解析失败" }
    | loc :: _ =>
      if g.status = some "1" then
        runAround net.around 0 categoryTable { init with coord := some loc }
      else { init with status := "地址解析失败" }

theorem runAround_error (net : Nat → Except String AroundResponse) (e : String) :
    ∀ (tbl : List (String × String × Nat)) (k i : Nat) (r : SurrRecord),
      (∀ j, j < k → ∃ rj, net (i + j) = Except.ok rj) →
      net (i + k) = Except.error e → k < tbl.length →
      (runAround net i tbl r).status = "搜索异常: " ++ e
      ∧ (runAround net i tbl r).coord = r.coord
      ∧ (runAround net i tbl r).cats = (runAround net i (tbl.take k) r).cats := by
  intro tbl
  induction tbl with
  | nil => intro k i r _ _ hk; simp at hk
  | cons entry rest ih =>
    intro k i r hok herb hk
    cases k with
    | zero =>
      rw [Nat.add_zero] at herb
      simp only [runAround, herb, List.take_zero]
      exact ⟨trivial, trivial, trivial⟩
    | succ k' =>
      obtain ⟨r0, hr0⟩ := hok 0 (Nat.succ_pos k')
      rw [Nat.add_zero] at hr0
      have hok' : ∀ j, j < k' → ∃ rj, net ((i + 1) + j) = Except.ok rj := by
        intro j hj
        have := hok (j + 1) (Nat.succ_lt_succ hj)
        rwa [show i + (j + 1) = i + 1 + j by omega] at this
      have herb' : net ((i + 1) + k') = Except.error e := by
        rwa [show i + (k' + 1) = i + 1 + k' by omega] at herb
      have hk' : k' < rest.length := by
        simp only [List.length_cons] at hk
        omega
      have H := ih k' (i + 1)
        (if r0.status = some "1" ∧ r0.pois ≠ [] then
           { r with
             cats := (appendCat r.cats entry.2.1 ((r0.pois.take 5).map renderPoi)) }
         else r) hok' herb' hk'
      refine ⟨?_, ?_, ?_⟩
      · simp only [runAround, hr0]
        exact H.1
      · simp only [runAround, hr0]
        rw [H.2.1]
        split <;> rfl
      · simp only [runAround, hr0, List.take_succ_cons]
        exact H.2.2

/-- C8: the surroundings search never raises — a geocoding failure returns
the record with status 地址解析失败, null coordinate and all five category
lists empty; a raised network exception at any point returns a record whose
status is 搜索异常 plus the exception message, keeping the coordinate and the
category lists accumulated by the calls that already succeeded. -/
theorem C8_surroundings (net : Net) :
    (∀ e, net.geo = Except.error e →
       search_surroundings net =
         { coord := none, cats := initCats, status := "搜索异常: " ++ e })
  ∧ (∀ g, net.geo = Except.ok g → (g.status ≠ some "1" ∨ g.geocodes = []) →
       search_surroundings net =
         { coord := none, cats := initCats, status := "地址解析失败" }
       ∧ ∀ c ∈ initCats, c.2 = ([] : List String))
  ∧ (∀ (g : GeoResponse) (loc : String) (rest : List String) (k : Nat) (e : String),
       net.geo = Except.ok g → g.status = some "1" → g.geocodes = loc :: rest →
       (∀ j, j < k → ∃ rj, net.around j = Except.ok rj) →
       net.around k = Except.error e → k < 5 →
       (search_surroundings net).status = "搜索异常: " ++ e
       ∧ (search_surroundings net).coord = some loc
       ∧ (search_surroundings net).cats
           = (runAround net.around 0 (categoryTable.take k)
               { coord := some loc, cats := initCats, status := "成功" }).cats) := by
  refine ⟨?_, ?_, ?_⟩
  · intro e he
    simp only [search_surroundings, he]
  · intro g hg hbad
    refine ⟨?_, by decide⟩
    simp only [search_surroundings, hg]
    rcases hbad with hb | hb
    · cases hgeo : g.geocodes with
      | nil => rfl
      | cons loc tail => simp [hb]
    · rw [hb]
  · intro g loc rest k e hg hst hgc hok herr hk5
    have hs : search_surroundings net
        = runAround net.around 0 categoryTable
            { coord := some loc, cats := initCats, status := "成功" } := by
      simp only [search_surroundings, hg, hgc, hst, if_pos]
    have H := runAround_error net.around e categoryTable k 0
        { coord := some loc, cats := initCats, status := "成功" }
        (by intro j hj; rw [Nat.zero_add]; exact hok j hj)
        (by rw [Nat.zero_add]; exact herr)
        (by simpa [categoryTable] using hk5)
    rw [hs]
    exact ⟨H.1, H.2.1, H.2.2⟩

/-- C8 witness network: geocoding succeeds, the first category search
succeeds, the second raises. -/
def C8_net : Net :=
  { geo := Except.ok { status := some "1", geocodes := ["116.48,39.95"] },
    around := fun i =>
      if i = 0 then Except.ok { status := some "1", pois := [("地铁站", "300")] }
      else Except.error "timeout" }

/-- C8 witness: the exception in the second category search yields the error
status while keeping the coordinate and the first category's results. -/
theorem C8_witness :
    (search_surroundings C8_net).status = "搜索异常: timeout"
  ∧ (search_surroundings C8_net).coord = some "116.48,39.95"
  ∧ (search_surroundings C8_net).cats
      = (runAround C8_net.around 0 (categoryTable.take 1)
          { coord := some "116.48,39.95", cats := initCats, status := "成功" }).cats :=
  (C8_surroundings C8_net).2.2 { status := some "1", geocodes := ["116.48,39.95"] }
    "116.48,39.95" [] 1 "timeout" rfl rfl rfl
    (by intro j hj
        have hj0 : j = 0 := Nat.lt_one_iff.mp hj
        subst hj0
        exact ⟨{ status := some "1", pois := [("地铁站", "300")] }, rfl⟩)
    rfl (by omega)

end App
